import Mathlib

/-!
Verification of the hybrid patch parser / applier
(`parser_handler.py` and `applier.py`).

The Python modules are shallowly embedded below: file content is a
`List String` of lines, hunks are records mirroring the `Hunk` dataclass,
and the in-place mutation of `apply_hunks` is modelled by explicit state
passing.  The `ui` collaborator is modelled by a disambiguation function
`List String → String → List Nat → Nat → Option Nat`; the logger is a
pure no-op and cannot fail.  Exceptions that the Python code can really
raise are modelled with `Except`.
-/

namespace PatchCode

/-- Python `\s` on the ASCII range: the whitespace class used by the
header regexes and by `str.strip()`. -/
def pyWS (c : Char) : Bool :=
  c == ' ' || c == '\t' || c == '\n' || c == '\r' || c == '\x0b' || c == '\x0c'

/-- Python `s.rstrip('\n')`: remove every trailing newline character. -/
def pyRstripNl (s : String) : String :=
  String.mk ((s.toList.reverse.dropWhile (fun c => c == '\n')).reverse)

/-- Python `s.strip()`: remove leading and trailing whitespace. -/
def pyStrip (s : String) : String :=
  String.mk (((s.toList.dropWhile pyWS).reverse.dropWhile pyWS).reverse)

/-- Does `xs` occur as a leading segment of `ys`?  (List-level
`isPrefixOf`, restated so its equations are convenient in proofs.) -/
def isLeadingSeg {α : Type} [BEq α] : List α → List α → Bool
  | [], _ => true
  | _ :: _, [] => false
  | a :: as, b :: bs => a == b && isLeadingSeg as bs

/-- Python substring test `needle in hay` at the character-list level. -/
def listHasSeg (needle : List Char) : List Char → Bool
  | [] => needle.isEmpty
  | c :: rest => isLeadingSeg needle (c :: rest) || listHasSeg needle rest

/-- Python `needle in hay` for strings (substring containment). -/
def strContainsSub (hay needle : String) : Bool :=
  listHasSeg needle.toList hay.toList

/-- Characters on which Python `str.splitlines` breaks a line. -/
def isLineBreak (c : Char) : Bool :=
  c == '\n' || c == '\r' || c == '\x0b' || c == '\x0c' ||
  c == '\x1c' || c == '\x1d' || c == '\x1e' ||
  c == (Char.ofNat 133) || c == (Char.ofNat 8232) || c == (Char.ofNat 8233)

/-- Worker for `pySplitlines`; `acc` holds the current line reversed. -/
def splitlinesGo : List Char → List Char → List String
  | [], acc => if acc.isEmpty then [] else [String.mk acc.reverse]
  | '\r' :: '\n' :: rest, acc => String.mk acc.reverse :: splitlinesGo rest []
  | c :: rest, acc =>
    if isLineBreak c then String.mk acc.reverse :: splitlinesGo rest []
    else splitlinesGo rest (c :: acc)

/-- Python `str.splitlines()` (no kept line endings, no trailing empty
line for a terminal terminator). -/
def pySplitlines (s : String) : List String :=
  splitlinesGo s.toList []

/-- Decimal value of a digit run (the `int(...)` applied to a `\d+`
regex group). -/
def natOfDigits (ds : List Char) : Nat :=
  ds.foldl (fun n c => n * 10 + (c.toNat - 48)) 0

/-- Python `list.insert(i, a)`: clamps `i` to the list length. -/
def pyInsert (l : List String) (i : Nat) (a : String) : List String :=
  l.take i ++ a :: l.drop i

/-- Python `s.startswith(pre)` (restated over character lists so that it
reduces definitionally). -/
def strStartsWith (s pre : String) : Bool :=
  isLeadingSeg pre.toList s.toList

/-- Python `s.endswith('\n')`: the last character is a newline. -/
def endsWithNl (s : String) : Bool :=
  s.toList.getLast? == some '\n'

/-- Worker for `pySplitNl`; `acc` holds the current piece reversed. -/
def splitNlGo : List Char → List Char → List String
  | [], acc => [String.mk acc.reverse]
  | c :: rest, acc =>
    if c == '\n' then String.mk acc.reverse :: splitNlGo rest []
    else splitNlGo rest (c :: acc)

/-- Python `s.split('\n')`: always at least one piece, empty pieces
kept. -/
def pySplitNl (s : String) : List String :=
  splitNlGo s.toList []

/-- Python `'\n'.join(ls)`. -/
def joinNl : List String → String
  | [] => ""
  | [s] => s
  | s :: rest => s ++ "\n" ++ joinNl rest

/-- `parser_handler.HunkLine`: one line of a hunk body. -/
structure HunkLine where
  type : Char
  content : String
  line_num : Option Nat := none
deriving DecidableEq

/-- `parser_handler.Hunk`: one parsed hunk.  As in the source, the hunk
kind is a string tag in `type`. -/
structure Hunk where
  type : String
  header : String
  lines : List HunkLine
  old_start : Option Nat := none
  old_count : Option Nat := none
  new_start : Option Nat := none
  new_count : Option Nat := none
  anchor : Option String := none
deriving DecidableEq

/-! ## Parser (`parser_handler.PatchParser`) -/

/-- Consume one expected character from the head of `cs`. -/
def expectChar (c : Char) : List Char → Option (List Char)
  | [] => none
  | x :: xs => if x == c then some xs else none

/-- The optional `(?:,(\d+))?` group of `UNIFIED_HEADER_RE` followed by
the mandatory continuation: returns the declared count (default 1, as in
`_parse_unified_hunk`) and the rest, or `none` when a comma is present
but not followed by a digit (the regex then fails, since `\s*` cannot
match the comma). -/
def optCount (cs : List Char) : Option (Nat × List Char) :=
  match cs with
  | c :: r =>
    if c == ',' then
      let ds := r.takeWhile Char.isDigit
      if ds.isEmpty then none else some (natOfDigits ds, r.dropWhile Char.isDigit)
    else some (1, c :: r)
  | [] => some (1, [])

/-- `PatchParser.UNIFIED_HEADER_RE`:
`^@@\s*-(\d+)(?:,(\d+))?\s*\+(\d+)(?:,(\d+))?\s*@@(.*)$`.
Each character class at a choice point is disjoint from its successor, so
the greedy left-to-right scan below is exactly the regex.  On a match it
yields `(old_start, old_count, new_start, new_count)`; the trailing
`(.*)` group is ignored by the source.  (Header lines come from
`splitlines` and therefore contain no newline characters.) -/
def parseUnifiedHeader (line : String) : Option (Nat × Nat × Nat × Nat) :=
  match expectChar '@' line.toList with
  | none => none
  | some r =>
  match expectChar '@' r with
  | none => none
  | some r0 =>
  match expectChar '-' (r0.dropWhile pyWS) with
  | none => none
  | some r1 =>
  let ds1 := r1.takeWhile Char.isDigit
  if ds1.isEmpty then none else
  match optCount (r1.dropWhile Char.isDigit) with
  | none => none
  | some (oc, r2) =>
  match expectChar '+' (r2.dropWhile pyWS) with
  | none => none
  | some r3 =>
  let ds3 := r3.takeWhile Char.isDigit
  if ds3.isEmpty then none else
  match optCount (r3.dropWhile Char.isDigit) with
  | none => none
  | some (nc, r4) =>
  match expectChar '@' (r4.dropWhile pyWS) with
  | none => none
  | some r5 =>
  match expectChar '@' r5 with
  | none => none
  | some _ => some (natOfDigits ds1, oc, natOfDigits ds3, nc)

/-- `PatchParser.EXPLICIT_ANCHOR_RE`: `^@@\s+(.+)$`, returning group 1.
The greedy `\s+` backtracks by at most one character: when everything
after `@@` is whitespace the run gives its last character back to `.+`,
so a header such as `@@  ` (two trailing spaces) still matches, with
group 1 a single whitespace character. -/
def explicitAnchorOf (line : String) : Option String :=
  match expectChar '@' line.toList with
  | none => none
  | some r =>
  match expectChar '@' r with
  | none => none
  | some rest =>
    let m := (rest.takeWhile pyWS).length
    if m == 0 then none
    else if m == rest.length then
      if 2 ≤ m then some (String.mk (rest.drop (m - 1))) else none
    else some (String.mk (rest.drop m))

/-- `PatchParser.IMPLICIT_ANCHOR_RE`: `^@@\s*$`. -/
def implicitAnchorMatch (line : String) : Bool :=
  match expectChar '@' line.toList with
  | none => false
  | some r =>
  match expectChar '@' r with
  | none => false
  | some rest => rest.all pyWS

/-- `PatchParser._find_next_non_empty`: first line with truthy
`strip()`. -/
def findNextNonEmptyLine (ls : List String) : Option String :=
  ls.find? (fun l => !(pyStrip l == ""))

/-- Line classification of `PatchParser._extract_hunk_lines`: empty
lines and lines without a recognized marker become context lines. -/
def classifyBodyLine (line : String) : HunkLine :=
  if line.length == 0 then { type := ' ', content := "" }
  else
    let c := line.toList.headD ' '
    if c == ' ' || c == '-' || c == '+' || c == '\\' then
      { type := c, content := line.drop 1 }
    else { type := ' ', content := line }

/-- Loop of `PatchParser._extract_hunk_lines`.  `started` is the
source's `len(hunk_lines) > 0` test guarding the blank-line terminator.
Returns the extracted lines and the unconsumed suffix. -/
def extractGo (started : Bool) : List String → List HunkLine × List String
  | [] => ([], [])
  | l :: rest =>
    if strStartsWith l ("@@") then ([], l :: rest)
    else if strStartsWith l ("---") || strStartsWith l ("+++") then ([], l :: rest)
    else if (pyStrip l == "") && started &&
        (match findNextNonEmptyLine rest with
         | some nl => strStartsWith nl ("@@")
         | none => false) then ([], l :: rest)
    else
      let p := extractGo true rest
      (classifyBodyLine l :: p.1, p.2)

/-- `PatchParser._extract_hunk_lines`, entered with no lines consumed. -/
def extractHunkLines (body : List String) : List HunkLine × List String :=
  extractGo false body

/-- Transition scan of `_looks_like_unified_without_offsets`. -/
def scanRemoveAddTransition : List HunkLine → Bool → Bool
  | [], _ => false
  | l :: rest, inRem =>
    if l.type == '-' then scanRemoveAddTransition rest true
    else if l.type == '+' && inRem then true
    else scanRemoveAddTransition rest inRem

/-- `PatchParser._looks_like_unified_without_offsets` as written (it
expects a list of `HunkLine`).  Note that `_parse_hunk` never actually
reaches it with such a list: see `parseHunk` below. -/
def looksLikeUnifiedWithoutOffsets (hunkLines : List HunkLine) : Bool :=
  if hunkLines.length < 2 then false
  else
    let hasRemovals := hunkLines.any (fun l => l.type == '-')
    let hasAdditions := hunkLines.any (fun l => l.type == '+')
    if !(hasRemovals && hasAdditions) then false
    else scanRemoveAddTransition hunkLines false

/-- Implicit-anchor derivation of `_parse_implicit_anchor_hunk`: the
`remove` texts seen before the first `add` line (other line kinds are
skipped without stopping the scan). -/
def implicitAnchorTexts : List HunkLine → List String
  | [] => []
  | l :: rest =>
    if l.type == '-' then l.content :: implicitAnchorTexts rest
    else if l.type == '+' then []
    else implicitAnchorTexts rest

/-- `PatchParser._parse_hunk`, given the header line and the lines after
it.  The fourth branch of the source assigns the `(lines, index)` pair
returned by `_extract_hunk_lines` to `hunk_lines` without unpacking it
and hands that pair to `_looks_like_unified_without_offsets`; iterating
the pair reaches the `List[HunkLine]` component, and reading `.type` off
a list raises `AttributeError` unconditionally.  That exception is
embedded as the `Except.error` below (the `return None, start_idx + 1`
after the heuristic is dead code). -/
def parseHunk (header : String) (body : List String) :
    Except String (Hunk × List String) :=
  match parseUnifiedHeader header with
  | some (os, oc, ns, nc) =>
    let p := extractHunkLines body
    .ok ({ type := "unified", header := header, lines := p.1,
           old_start := some os, old_count := some oc,
           new_start := some ns, new_count := some nc }, p.2)
  | none =>
  match explicitAnchorOf header with
  | some g =>
    let p := extractHunkLines body
    .ok ({ type := "explicit_anchor", header := header, lines := p.1,
           anchor := some (pyStrip g) }, p.2)
  | none =>
  if implicitAnchorMatch header then
    let p := extractHunkLines body
    let anchorLines := implicitAnchorTexts p.1
    .ok ({ type := "implicit_anchor", header := header, lines := p.1,
           anchor := if anchorLines.isEmpty then none
                     else some (joinNl anchorLines) }, p.2)
  else
    .error ("AttributeError: list object has no attribute type")

theorem extractGo_snd_length (b : Bool) (ls : List String) :
    (extractGo b ls).2.length ≤ ls.length := by
  induction ls generalizing b with
  | nil => simp [extractGo]
  | cons l rest ih =>
    simp only [extractGo]
    split
    · simp
    · split
      · simp
      · split
        · simp
        · simpa using Nat.le_succ_of_le (ih true)

theorem parseHunk_snd_length {header : String} {body : List String}
    {hk : Hunk} {rem : List String}
    (h : parseHunk header body = .ok (hk, rem)) : rem.length ≤ body.length := by
  unfold parseHunk at h
  split at h
  · simp only [Except.ok.injEq, Prod.mk.injEq] at h
    rw [← h.2]
    exact extractGo_snd_length false body
  · split at h
    · simp only [Except.ok.injEq, Prod.mk.injEq] at h
      rw [← h.2]
      exact extractGo_snd_length false body
    · split at h
      · simp only [Except.ok.injEq, Prod.mk.injEq] at h
        rw [← h.2]
        exact extractGo_snd_length false body
      · exact absurd h (by simp)

/-- Main loop of `PatchParser.parse_patch`: skip `---`/`+++` lines, open
a hunk at each `@@` line, otherwise advance.  A raised `AttributeError`
propagates out of the loop, as in the source.  The loop consumes at
least one line per iteration (`parseHunk_snd_length`), so running it on
fuel equal to the number of remaining lines, as `parsePatch` does, never
reaches the zero-fuel case. -/
def parseLoopFuel : Nat → List String → Except String (List Hunk)
  | 0, _ => .ok []
  | _ + 1, [] => .ok []
  | fuel + 1, l :: rest =>
    if strStartsWith l ("---") || strStartsWith l ("+++") then parseLoopFuel fuel rest
    else if strStartsWith l ("@@") then
      match parseHunk l rest with
      | .error e => .error e
      | .ok (hk, rem) =>
        match parseLoopFuel fuel rem with
        | .error e => .error e
        | .ok hs => .ok (hk :: hs)
    else parseLoopFuel fuel rest

/-- `PatchParser.parse_patch`. -/
def parsePatch (s : String) : Except String (List Hunk) :=
  parseLoopFuel (pySplitlines s).length (pySplitlines s)

/-! ## Applier (`applier.PatchApplier`) -/

/-- `applier.py`'s hunk application report (the `results` dict without
its warnings being interleaved with log calls). -/
structure Results where
  applied : Nat
  failed : Nat
  warnings : List String
deriving DecidableEq

/-- One entry of the `changes` list built by
`_perform_unified_changes`: a `('remove', idx, text)` or
`('add', idx, text)` triple. -/
structure Change where
  kind : String
  idx : Nat
  text : String
deriving DecidableEq

/-- Insertion step of `sortChangesDesc`: place `c` before the first
element whose index it is greater than or equal to. -/
def insertChangeDesc (c : Change) : List Change → List Change
  | [] => [c]
  | d :: ds => if d.idx ≤ c.idx then c :: d :: ds else d :: insertChangeDesc c ds

/-- Python `changes.sort(key=lambda x: x[1], reverse=True)`.  CPython's
sort is stable also under `reverse=True` (equal keys keep their original
order); this insertion sort has exactly that behaviour. -/
def sortChangesDesc : List Change → List Change
  | [] => []
  | c :: cs => insertChangeDesc c (sortChangesDesc cs)

/-- Insertion step of `sortNatDesc`. -/
def insertNatDesc (n : Nat) : List Nat → List Nat
  | [] => [n]
  | m :: ms => if m ≤ n then n :: m :: ms else m :: insertNatDesc n ms

/-- Python `sorted(removal_indices, reverse=True)`. -/
def sortNatDesc : List Nat → List Nat
  | [] => []
  | n :: ns => insertNatDesc n (sortNatDesc ns)

/-- The `for i in range(s, s + n): if p(i): return i` search pattern
shared by the applier's scanning loops. -/
def findFirstFrom (p : Nat → Bool) (s : Nat) : Nat → Option Nat
  | 0 => none
  | n + 1 => if p s then some s else findFirstFrom p (s + 1) n

/-- `PatchApplier._find_line_in_content`: first line whose
`rstrip('\n')` equals `target` (the caller passes `target` already
stripped). -/
def findLineInContent (content : List String) (target : String) : Option Nat :=
  findFirstFrom (fun i => pyRstripNl (content.getD i "") == target) 0 content.length

/-- The `context_lines` collected at the start of
`_find_best_unified_position`: the `' '`-kind texts, `rstrip('\n')`ed. -/
def contextTexts (h : Hunk) : List String :=
  h.lines.filterMap (fun l => if l.type == ' ' then some (pyRstripNl l.content) else none)

/-- Inner loop of the window search of `_find_best_unified_position`:
all context lines equal the content lines starting at `i` (content
compared after `rstrip('\n')`). -/
def windowMatchAt (content : List String) (ctx : List String) (i : Nat) : Bool :=
  isLeadingSeg ctx ((content.drop i).map pyRstripNl)

/-- `PatchApplier._find_best_unified_position`. -/
def findBestUnifiedPosition (content : List String) (h : Hunk) : Option Nat :=
  let ctx := contextTexts h
  if ctx.isEmpty then
    match h.lines.find? (fun l => l.type == '-') with
    | some l => findLineInContent content (pyRstripNl l.content)
    | none => none
  else
    findFirstFrom (fun i => windowMatchAt content ctx i) 0 (content.length + 1 - ctx.length)

/-- `PatchApplier._validate_unified_context`: walk the hunk lines from
`idx`; `' '` and `'-'` lines must match the content (after
`rstrip('\n')`) and advance, other kinds are skipped. -/
def validateUnifiedContext (content : List String) : List HunkLine → Nat → Bool
  | [], _ => true
  | l :: rest, idx =>
    if l.type == ' ' || l.type == '-' then
      match content[idx]? with
      | none => false
      | some cl =>
        if pyRstripNl cl == pyRstripNl l.content then
          validateUnifiedContext content rest (idx + 1)
        else false
    else validateUnifiedContext content rest idx

/-- First phase of `_perform_unified_changes`: build the change list
(`'remove'`/`'add'` entries are only recorded when not reverting, but
the running index advances regardless) and return the final running
index. -/
def unifiedChangesPhase1 (revert : Bool) (start : Nat) (lines : List HunkLine) :
    List Change × Nat :=
  lines.foldl (fun acc l =>
    if l.type == ' ' then (acc.1, acc.2 + 1)
    else if l.type == '-' then
      ((if revert then acc.1 else acc.1 ++ [{ kind := "remove", idx := acc.2, text := l.content }]), acc.2 + 1)
    else if l.type == '+' then
      ((if revert then acc.1 else acc.1 ++ [{ kind := "add", idx := acc.2, text := l.content }]), acc.2)
    else acc) ([], start)

/-- The `enumerate(content[start_line:], start_line)` search of the
revert branch of `_perform_unified_changes`: first index at or after
`start` whose line `rstrip('\n')`-equals `txt`. -/
def searchFrom (content : List String) (start : Nat) (txt : String) : Option Nat :=
  findFirstFrom (fun i => pyRstripNl (content.getD i "") == pyRstripNl txt) start
    (content.length - start)

/-- Second phase of `_perform_unified_changes` in revert mode: each
`'+'` line becomes a search-and-remove (dropped when not found), each
`'-'` line becomes an add at the final running index `finalIdx`. -/
def unifiedRevertChanges (content : List String) (start finalIdx : Nat)
    (lines : List HunkLine) : List Change :=
  lines.foldl (fun acc l =>
    if l.type == '+' then
      match searchFrom content start l.content with
      | some i => acc ++ [{ kind := "remove", idx := i, text := l.content }]
      | none => acc
    else if l.type == '-' then
      acc ++ [{ kind := "add", idx := finalIdx, text := l.content }]
    else acc) []

/-- Application of a single change in `_perform_unified_changes`:
out-of-range removals are skipped; an added line receives a trailing
newline unless it already ends in one or is placed at or past the end of
the current content (Python `list.insert` clamps the index). -/
def applyChange (content : List String) (c : Change) : List String :=
  if c.kind == "remove" then
    if c.idx < content.length then content.eraseIdx c.idx else content
  else if c.kind == "add" then
    let t := if !(endsWithNl c.text) && decide (c.idx < content.length) then
               c.text ++ "\n" else c.text
    pyInsert content c.idx t
  else content

/-- `PatchApplier._perform_unified_changes`.  The body raises no
exception, so the `try` wrapper always returns `True`; only the new
content is returned here. -/
def performUnifiedChanges (revert : Bool) (content : List String) (h : Hunk)
    (start : Nat) : List String :=
  let p := unifiedChangesPhase1 revert start h.lines
  let changes := p.1 ++ (if revert then unifiedRevertChanges content start p.2 h.lines else [])
  (sortChangesDesc changes).foldl applyChange content

/-- Position resolution at the top of `_apply_unified_hunk`: content
search when `old_start` is `None` or `≤ 1`, otherwise the declared
one-based position converted to zero-based. -/
def unifiedTargetIndex (content : List String) (h : Hunk) : Option Nat :=
  match h.old_start with
  | none => findBestUnifiedPosition content h
  | some s => if s ≤ 1 then findBestUnifiedPosition content h else some (s - 1)

/-- `PatchApplier._apply_unified_hunk`: returns the success flag, the
new content, and the warnings appended to `results['warnings']`. -/
def applyUnifiedHunk (revert : Bool) (content : List String) (h : Hunk) :
    Bool × List String × List String :=
  match unifiedTargetIndex content h with
  | none => (false, content, ["Não foi possível encontrar posição para hunk unified"])
  | some t =>
    if validateUnifiedContext content h.lines t then
      (true, performUnifiedChanges revert content h t, [])
    else
      (false, content, ["Contexto divergente no hunk unified (linha " ++ toString (t + 1) ++ ")"])

/-- Multi-line window test of `_find_anchor_matches`: every anchor line,
stripped, is a substring of the corresponding content line
(`rstrip('\n')`ed). -/
def multiAnchorAt (content : List String) (als : List String) (i : Nat) : Bool :=
  (List.range als.length).all
    (fun j => strContainsSub (pyRstripNl (content.getD (i + j) "")) (pyStrip (als.getD j "")))

/-- `PatchApplier._find_anchor_matches`: all match indices, ascending.
Single-line anchors match by substring containment of the stripped
anchor; multi-line anchors match a window. -/
def findAnchorMatches (content : List String) (anchor : String) : List Nat :=
  let als := pySplitNl anchor
  if als.length == 1 then
    let target := pyStrip (als.headD "")
    (List.range content.length).filter
      (fun i => strContainsSub (pyRstripNl (content.getD i "")) target)
  else
    (List.range (content.length + 1 - als.length)).filter (fun i => multiAnchorAt content als i)

/-- The `'-'`-kind texts of a hunk (the `removals` list of
`_perform_anchor_changes`). -/
def removalTexts (h : Hunk) : List String :=
  h.lines.filterMap (fun l => if l.type == '-' then some l.content else none)

/-- The `'+'`-kind texts of a hunk (the `additions` list of
`_perform_anchor_changes`). -/
def additionTexts (h : Hunk) : List String :=
  h.lines.filterMap (fun l => if l.type == '+' then some l.content else none)

/-- Removal marking of `_perform_anchor_changes`: for each removal text,
the first index in `range(anchor_line, min(len(content), anchor_line +
len(removals) * 2))` whose line contains the stripped text as a
substring; texts with no match in the window are dropped. -/
def anchorRemovalIndices (content : List String) (anchorLine : Nat)
    (removals : List String) : List Nat :=
  if removals.isEmpty then []
  else
    let e := min content.length (anchorLine + removals.length * 2)
    removals.foldl (fun acc r =>
      match findFirstFrom
          (fun i => decide (i < content.length) &&
            strContainsSub (pyRstripNl (content.getD i "")) (pyStrip r))
          anchorLine (e - anchorLine) with
      | some i => acc ++ [i]
      | none => acc) []

/-- Deletion pass of `_perform_anchor_changes`: pop the marked indices
in descending order, skipping any index out of range of the shrinking
list. -/
def deleteDescending (content : List String) (idxs : List Nat) : List String :=
  (sortNatDesc idxs).foldl (fun c idx => if idx < c.length then c.eraseIdx idx else c) content

/-- Insertion pass of `_perform_anchor_changes`: insert the additions in
list order starting at `pos`, advancing the cursor by one per insertion;
newline normalization as in `applyChange`. -/
def insertAdditions (content : List String) (pos : Nat) (additions : List String) :
    List String :=
  (additions.foldl (fun acc t =>
    let t2 := if !(endsWithNl t) && decide (acc.2 < acc.1.length) then t ++ "\n" else t
    (pyInsert acc.1 acc.2 t2, acc.2 + 1)) (content, pos)).1

/-- `PatchApplier._perform_anchor_changes`.  Like the unified variant,
its body raises no exception, so the `try` wrapper always returns
`True`. -/
def performAnchorChanges (revert : Bool) (content : List String) (h : Hunk)
    (anchorLine : Nat) : List String :=
  let removals := if revert then additionTexts h else removalTexts h
  let additions := if revert then removalTexts h else additionTexts h
  let c1 := deleteDescending content (anchorRemovalIndices content anchorLine removals)
  insertAdditions c1 anchorLine additions

/-- The `ui.disambiguate_anchor` collaborator: given content, anchor,
match indices and the context-line count, returns the chosen index or
`none` for cancellation. -/
def Disamb : Type :=
  List String → String → List Nat → Nat → Option Nat

/-- `PatchApplier._apply_explicit_anchor_hunk`.  Python's
`if not hunk.anchor` treats both a missing and an empty anchor as
absent. -/
def applyExplicitAnchorHunk (revert : Bool) (ctxn : Nat) (disamb : Disamb)
    (content : List String) (h : Hunk) : Bool × List String × List String :=
  match h.anchor with
  | none => (false, content, ["Hunk de âncora explícita sem âncora definida"])
  | some a =>
    if a == "" then (false, content, ["Hunk de âncora explícita sem âncora definida"])
    else
      match findAnchorMatches content a with
      | [] => (false, content, ["Âncora não encontrada: \x27" ++ a ++ "\x27"])
      | [t] => (true, performAnchorChanges revert content h t, [])
      | ms =>
        match disamb content a ms ctxn with
        | none => (false, content, ["Aplicação cancelada pelo utilizador"])
        | some t => (true, performAnchorChanges revert content h t, [])

/-- `PatchApplier._apply_implicit_anchor_hunk`. -/
def applyImplicitAnchorHunk (revert : Bool) (ctxn : Nat) (disamb : Disamb)
    (content : List String) (h : Hunk) : Bool × List String × List String :=
  match h.anchor with
  | none => (false, content, ["Hunk de âncora implícita sem âncora derivada"])
  | some a =>
    if a == "" then (false, content, ["Hunk de âncora implícita sem âncora derivada"])
    else
      match findAnchorMatches content a with
      | [] => (false, content, ["Âncora implícita não encontrada"])
      | [t] => (true, performAnchorChanges revert content h t, [])
      | ms =>
        match disamb content a ms ctxn with
        | none => (false, content, ["Aplicação cancelada pelo utilizador"])
        | some t => (true, performAnchorChanges revert content h t, [])

/-- Dispatch on `hunk.type` inside the loop of
`PatchApplier.apply_hunks`.  An unknown tag leaves `success = False`
with no warning, as in the source.  The modelled collaborators
(`disamb`, the logger) are total, so the `except` arm of the source is
unreachable here. -/
def applyOneHunk (revert : Bool) (ctxn : Nat) (disamb : Disamb)
    (content : List String) (h : Hunk) : Bool × List String × List String :=
  if h.type == "unified" then applyUnifiedHunk revert content h
  else if h.type == "explicit_anchor" then applyExplicitAnchorHunk revert ctxn disamb content h
  else if h.type == "implicit_anchor" then applyImplicitAnchorHunk revert ctxn disamb content h
  else (false, content, [])

/-- Loop of `PatchApplier.apply_hunks`, threading the mutated content
and the `results` dict. -/
def applyHunksGo (revert : Bool) (ctxn : Nat) (disamb : Disamb) :
    List Hunk → List String × Results → List String × Results
  | [], acc => acc
  | h :: hs, acc =>
    let r := applyOneHunk revert ctxn disamb acc.1 h
    let res :=
      if r.1 then
        { acc.2 with applied := acc.2.applied + 1, warnings := acc.2.warnings ++ r.2.2 }
      else
        { acc.2 with failed := acc.2.failed + 1, warnings := acc.2.warnings ++ r.2.2 }
    applyHunksGo revert ctxn disamb hs (r.2.1, res)

/-- `PatchApplier.apply_hunks`: works on a copy of the caller's content
(see `applyHunksRef` for the heap-level view) and returns the mutated
copy together with the report. -/
def applyHunks (revert : Bool) (ctxn : Nat) (disamb : Disamb)
    (content : List String) (hunks : List Hunk) : List String × Results :=
  applyHunksGo revert ctxn disamb hunks (content, { applied := 0, failed := 0, warnings := [] })

/-- Loop of the heap-level rendering of `apply_hunks` (see
`applyHunksRef`): each iteration reads the working cell `r2`, applies
one hunk, and writes the new content back to that cell only. -/
def applyHunksRefGo (revert : Bool) (ctxn : Nat) (disamb : Disamb) (r2 : Nat) :
    List Hunk → List (List String) × Results → List (List String) × Results
  | [], acc => acc
  | h :: hs, acc =>
    let c := acc.1.getD r2 []
    let st := applyOneHunk revert ctxn disamb c h
    let res :=
      if st.1 then
        { acc.2 with applied := acc.2.applied + 1, warnings := acc.2.warnings ++ st.2.2 }
      else
        { acc.2 with failed := acc.2.failed + 1, warnings := acc.2.warnings ++ st.2.2 }
    applyHunksRefGo revert ctxn disamb r2 hs (acc.1.set r2 st.2.1, res)

/-- Heap-level rendering of `apply_hunks` for the aliasing contract:
the store maps references (indices) to line lists.  The function
allocates a fresh cell holding `content.copy()` (reference `σ.length`),
mutates only that cell while looping over the hunks, and returns the
store, the reference of the copy, and the report. -/
def applyHunksRef (revert : Bool) (ctxn : Nat) (disamb : Disamb)
    (σ : List (List String)) (r : Nat) (hunks : List Hunk) :
    List (List String) × Nat × Results :=
  let r2 := σ.length
  let fin := applyHunksRefGo revert ctxn disamb r2 hunks
    (σ ++ [σ.getD r []], { applied := 0, failed := 0, warnings := [] })
  (fin.1, r2, fin.2)

/-! ## General lemmas about the embedding's building blocks -/

theorem toList_mk (cs : List Char) : (String.mk cs).toList = cs := rfl

theorem dropWhile_eq_nil_of_all {α : Type} {p : α → Bool} :
    ∀ {l : List α}, (∀ c ∈ l, p c = true) → l.dropWhile p = [] := by
  intro l h
  induction l with
  | nil => rfl
  | cons a l ih =>
    rw [List.dropWhile_cons, if_pos (h a (by simp))]
    exact ih (fun c hc => h c (by simp [hc]))

theorem takeWhile_eq_self_of_all {α : Type} {p : α → Bool} :
    ∀ {l : List α}, (∀ c ∈ l, p c = true) → l.takeWhile p = l := by
  intro l h
  induction l with
  | nil => rfl
  | cons a l ih =>
    rw [List.takeWhile_cons, if_pos (h a (by simp))]
    exact congrArg _ (ih (fun c hc => h c (by simp [hc])))

/-- Characterization of the scanning loops: `findFirstFrom p s n`
returns exactly the least index in `[s, s + n)` satisfying `p`. -/
theorem findFirstFrom_eq_some {p : Nat → Bool} :
    ∀ {n s i : Nat}, findFirstFrom p s n = some i ↔
      s ≤ i ∧ i < s + n ∧ p i = true ∧ ∀ j, s ≤ j → j < i → p j = false := by
  intro n
  induction n with
  | zero =>
    intro s i
    simp only [findFirstFrom]
    constructor
    · intro h; cases h
    · intro ⟨h1, h2, _⟩; omega
  | succ n ih =>
    intro s i
    simp only [findFirstFrom]
    by_cases hp : p s = true
    · rw [if_pos hp]
      constructor
      · intro h
        cases h
        exact ⟨Nat.le_refl s, by omega, hp, fun j hj1 hj2 => by omega⟩
      · intro ⟨h1, _, _, hmin⟩
        have : s = i := by
          by_contra hne
          have : p s = false := hmin s (Nat.le_refl s) (by omega)
          rw [hp] at this; cases this
        rw [this]
    · rw [if_neg hp]
      rw [ih]
      constructor
      · intro ⟨h1, h2, h3, hmin⟩
        refine ⟨by omega, by omega, h3, fun j hj1 hj2 => ?_⟩
        rcases Nat.eq_or_lt_of_le hj1 with he | hl
        · rw [← he]; exact Bool.eq_false_iff.mpr hp
        · exact hmin j hl hj2
      · intro ⟨h1, h2, h3, hmin⟩
        have hsi : s ≠ i := by
          intro he; rw [← he] at h3; exact hp h3
        exact ⟨by omega, by omega, h3, fun j hj1 hj2 => hmin j (by omega) hj2⟩

theorem findFirstFrom_eq_none {p : Nat → Bool} :
    ∀ {n s : Nat}, findFirstFrom p s n = none ↔
      ∀ j, s ≤ j → j < s + n → p j = false := by
  intro n
  induction n with
  | zero =>
    intro s
    simp only [findFirstFrom]
    constructor
    · intro _ j h1 h2
      exact absurd h2 (by omega)
    · intro _
      trivial
  | succ n ih =>
    intro s
    simp only [findFirstFrom]
    by_cases hp : p s = true
    · rw [if_pos hp]
      constructor
      · intro h; cases h
      · intro h
        have := h s (Nat.le_refl s) (by omega)
        rw [hp] at this; cases this
    · rw [if_neg hp, ih]
      constructor
      · intro h j hj1 hj2
        rcases Nat.eq_or_lt_of_le hj1 with he | hl
        · rw [← he]; exact Bool.eq_false_iff.mpr hp
        · exact h j hl (by omega)
      · intro h j hj1 hj2
        exact h j (by omega) (by omega)

/-- `getD` after a `drop` re-indexes. -/
theorem getD_drop {α : Type} (d : α) :
    ∀ (l : List α) (i j : Nat), (l.drop i).getD j d = l.getD (i + j) d := by
  intro l
  induction l with
  | nil => intro i j; simp
  | cons a l ih =>
    intro i j
    cases i with
    | zero => simp
    | succ i =>
      rw [List.drop_succ_cons, ih i j]
      have : i + 1 + j = (i + j) + 1 := by omega
      rw [this]
      rfl

/-- `getD` through a `map`, inside the range. -/
theorem getD_map_lt {α β : Type} (f : α → β) (d : α) (e : β) :
    ∀ (l : List α) (j : Nat), j < l.length → (l.map f).getD j e = f (l.getD j d) := by
  intro l
  induction l with
  | nil => intro j hj; simp at hj
  | cons a l ih =>
    intro j hj
    cases j with
    | zero => rfl
    | succ j =>
      simp only [List.map_cons, List.getD_cons_succ]
      exact ih j (by simpa using hj)

/-- `isLeadingSeg` in terms of lengths and positionwise `getD`. -/
theorem isLeadingSeg_iff {α : Type} [DecidableEq α] (d : α) :
    ∀ (xs ys : List α), isLeadingSeg xs ys = true ↔
      xs.length ≤ ys.length ∧ ∀ j, j < xs.length → xs.getD j d = ys.getD j d := by
  intro xs
  induction xs with
  | nil =>
    intro ys
    simp [isLeadingSeg]
  | cons a as ih =>
    intro ys
    cases ys with
    | nil =>
      simp only [isLeadingSeg]
      constructor
      · intro h; cases h
      · intro ⟨h, _⟩; simp at h
    | cons b bs =>
      simp only [isLeadingSeg, Bool.and_eq_true, beq_iff_eq, ih bs]
      constructor
      · intro ⟨hab, hlen, hpos⟩
        refine ⟨by simpa using hlen, fun j hj => ?_⟩
        cases j with
        | zero => simpa using hab
        | succ j => simpa using hpos j (by simpa using hj)
      · intro ⟨hlen, hpos⟩
        refine ⟨by simpa using hpos 0 (by simp), by simpa using hlen, fun j hj => ?_⟩
        simpa using hpos (j + 1) (by simpa using hj)

/-! ## Concrete collaborators used in the theorems -/

/-- A disambiguation port that always cancels. -/
def disambNone : Disamb := fun _ _ _ _ => none

/-- A disambiguation port that always chooses index 1. -/
def disambPick1 : Disamb := fun _ _ _ _ => some 1

/-! ## Claim theorems -/

/-- C1: the spec's example scenario — content `["a\n","b\n","c\n"]`,
unified hunk `-b +x +y` at `old_start = 2` — does NOT produce
`["a\n","x\n","y\n","c\n"]`.  Both additions are recorded at the same
content index; the descending stable sort keeps them in hunk order and
each is inserted at that fixed index, so consecutive additions end up
reversed: the code returns `["a\n","y\n","x\n","c\n"]` with
`applied = 1`, `failed = 0`. -/
theorem unified_consecutive_adds_reversed :
    applyHunks false 3 disambNone ["a\n", "b\n", "c\n"]
      [{ type := "unified", header := "@@ -2,1 +2,2 @@",
         lines := [{ type := '-', content := "b" }, { type := '+', content := "x" },
                   { type := '+', content := "y" }],
         old_start := some 2, old_count := some 1,
         new_start := some 2, new_count := some 2 }] =
      (["a\n", "y\n", "x\n", "c\n"], { applied := 1, failed := 0, warnings := [] }) ∧
    (["a\n", "y\n", "x\n", "c\n"] : List String) ≠ ["a\n", "x\n", "y\n", "c\n"] := by
  exact ⟨rfl, by decide⟩

/-- C2: `parse_patch` raises on a line starting with `@@` that matches
none of the three header patterns (the claim's own example `@@@`): the
fallback heuristic hands the un-unpacked `(lines, index)` pair of
`_extract_hunk_lines` to `_looks_like_unified_without_offsets`, which
reads `.type` off a list and raises `AttributeError`. -/
theorem parse_patch_unmatched_header_raises :
    parsePatch ("@@@\n-a\n+b") =
      Except.error ("AttributeError: list object has no attribute type") := by
  rfl

/-- C3 counterexample: the header `"@@  "` (two trailing spaces, i.e.
`@@` followed only by whitespace) is classified as an explicit-anchor
hunk, not an implicit-anchor hunk: `EXPLICIT_ANCHOR_RE`'s greedy `\s+`
gives one whitespace character back to `.+`, so the regex matches with
an all-whitespace group. -/
theorem two_space_header_parsed_as_explicit_anchor :
    (parsePatch ("@@  \n-a")).map (List.map Hunk.type) = Except.ok ["explicit_anchor"] ∧
    (parsePatch ("@@  \n-a")).map (List.map Hunk.type) ≠ Except.ok ["implicit_anchor"] := by
  refine ⟨rfl, ?_⟩
  intro hcontra
  rw [show (parsePatch ("@@  \n-a")).map (List.map Hunk.type) = Except.ok ["explicit_anchor"] from rfl] at hcontra
  simp at hcontra

/-- C3 (amended): a hunk header consisting of `@@` followed only by
whitespace characters is classified as an implicit-anchor hunk exactly
when at most one whitespace character follows `@@`; with two or more
trailing whitespace characters, `EXPLICIT_ANCHOR_RE` matches (its
greedy `\s+` gives its last character back to `.+`), so the hunk is
classified as an explicit-anchor hunk (whose trimmed anchor is empty).
Explicit-anchor classification therefore does not require non-empty
content after the whitespace.  (Lines produced by `splitlines` contain
only spaces and tabs as whitespace.) -/
theorem all_whitespace_header_classification :
    ∀ (ws : List Char) (body : List String),
      (∀ c ∈ ws, c = ' ' ∨ c = '\t') →
      (parseHunk (String.mk ('@' :: '@' :: ws)) body).map (fun p => p.1.type) =
        Except.ok (if 2 ≤ ws.length then "explicit_anchor" else "implicit_anchor") := by
  intro ws body hws
  have hpy : ∀ c ∈ ws, pyWS c = true := by
    intro c hc
    rcases hws c hc with h | h <;> simp [pyWS, h]
  have hdrop : ws.dropWhile pyWS = [] := dropWhile_eq_nil_of_all hpy
  have htake : ws.takeWhile pyWS = ws := takeWhile_eq_self_of_all hpy
  have hu : parseUnifiedHeader (String.mk ('@' :: '@' :: ws)) = none := by
    simp [parseUnifiedHeader, expectChar, toList_mk, hdrop]
  cases ws with
  | nil =>
    simp [parseHunk, hu, explicitAnchorOf, expectChar, toList_mk,
      implicitAnchorMatch, Except.map]
  | cons c1 t1 =>
    cases t1 with
    | nil =>
      have hc1 : pyWS c1 = true := hpy c1 (by simp)
      simp [parseHunk, hu, explicitAnchorOf, expectChar, toList_mk, htake,
        implicitAnchorMatch, hc1, Except.map]
    | cons c2 t2 =>
      simp [parseHunk, hu, explicitAnchorOf, expectChar, toList_mk, htake,
        Except.map]

/-- Witness for `all_whitespace_header_classification`: the hypotheses
hold at the concrete header `@@` + two spaces and body `["-a"]`. -/
theorem all_whitespace_header_classification_witness :
    (∀ c ∈ ([' ', ' '] : List Char), c = ' ' ∨ c = '\t') ∧
    (parseHunk (String.mk ('@' :: '@' :: [' ', ' '])) ["-a"]).map (fun p => p.1.type) =
      Except.ok (if 2 ≤ ([' ', ' '] : List Char).length then "explicit_anchor"
                 else "implicit_anchor") :=
  ⟨by decide, all_whitespace_header_classification [' ', ' '] ["-a"] (by decide)⟩

theorem extractHunkLines_fst_ne_nil_iff (body : List String) :
    (extractHunkLines body).1 ≠ [] ↔
      ∃ l rest, body = l :: rest ∧ strStartsWith l ("@@") = false ∧
        strStartsWith l ("---") = false ∧ strStartsWith l ("+++") = false := by
  cases body with
  | nil =>
    constructor
    · intro h
      exact absurd rfl h
    · intro ⟨l, rest, heq, _⟩
      cases heq
  | cons l rest =>
    constructor
    · intro hne
      by_cases h1 : strStartsWith l ("@@") = true
      · exact absurd (by simp [extractHunkLines, extractGo, h1]) hne
      by_cases h2 : strStartsWith l ("---") = true
      · exact absurd (by simp [extractHunkLines, extractGo, h1, h2]) hne
      by_cases h3 : strStartsWith l ("+++") = true
      · exact absurd (by simp [extractHunkLines, extractGo, h1, h2, h3]) hne
      exact ⟨l, rest, rfl, Bool.eq_false_iff.mpr h1, Bool.eq_false_iff.mpr h2,
        Bool.eq_false_iff.mpr h3⟩
    · intro ⟨l2, rest2, heq, hb1, hb2, hb3⟩
      have hl : l2 = l := by injection heq with a b; exact a.symm
      subst hl
      simp [extractHunkLines, extractGo, hb1, hb2, hb3]

theorem parseHunk_ok_lines {header : String} {body : List String} {hk : Hunk}
    {rem : List String} (h : parseHunk header body = .ok (hk, rem)) :
    hk.lines = (extractHunkLines body).1 := by
  unfold parseHunk at h
  split at h
  · simp only [Except.ok.injEq, Prod.mk.injEq] at h
    rw [← h.1]
  · split at h
    · simp only [Except.ok.injEq, Prod.mk.injEq] at h
      rw [← h.1]
    · split at h
      · simp only [Except.ok.injEq, Prod.mk.injEq] at h
        rw [← h.1]
      · exact absurd h (by simp)

/-- C8 (amended): a `Hunk` produced by the parser carries at least one
`HunkLine` if and only if its header is followed by at least one body
line that is not another `@@` header and not a `---`/`+++` file-header
line; in particular a header immediately followed by another `@@`
header, a file-header line, or the end of the input yields a `Hunk`
with an empty line list. -/
theorem parsed_hunk_lines_nonempty_iff :
    ∀ (header : String) (body : List String) (hk : Hunk) (rem : List String),
      parseHunk header body = Except.ok (hk, rem) →
      (hk.lines ≠ [] ↔ ∃ l rest, body = l :: rest ∧
        strStartsWith l ("@@") = false ∧ strStartsWith l ("---") = false ∧
        strStartsWith l ("+++") = false) := by
  intro header body hk rem h
  rw [parseHunk_ok_lines h]
  exact extractHunkLines_fst_ne_nil_iff body

/-- Witness for `parsed_hunk_lines_nonempty_iff` at the header
`@@ -1 +1 @@` with single body line `x`. -/
theorem parsed_hunk_lines_nonempty_iff_witness :
    (({ type := "unified", header := "@@ -1 +1 @@",
        lines := [{ type := ' ', content := "x", line_num := none }],
        old_start := some 1, old_count := some 1, new_start := some 1,
        new_count := some 1, anchor := none } : Hunk).lines ≠ [] ↔
      ∃ l rest, ["x"] = l :: rest ∧ strStartsWith l ("@@") = false ∧
        strStartsWith l ("---") = false ∧ strStartsWith l ("+++") = false) :=
  parsed_hunk_lines_nonempty_iff "@@ -1 +1 @@" ["x"]
    { type := "unified", header := "@@ -1 +1 @@",
      lines := [{ type := ' ', content := "x", line_num := none }],
      old_start := some 1, old_count := some 1, new_start := some 1,
      new_count := some 1, anchor := none } [] rfl

/-- C4 counterexample: in the spec's duplicate-anchor scenario the
disambiguation port does receive `[0, 1]`, but after selecting index 1
the added line is inserted AT index 1 — immediately BEFORE the second
`"dup\n"` — giving `["dup\n","new\n","dup\n"]`, not the claimed
insertion immediately after index 1. -/
theorem anchor_insert_before_anchor_counterexample :
    findAnchorMatches ["dup\n", "dup\n"] "dup" = [0, 1] ∧
    applyHunks false 3 disambPick1 ["dup\n", "dup\n"]
      [{ type := "explicit_anchor", header := "@@ dup",
         lines := [{ type := '+', content := "new" }], anchor := some "dup" }] =
      (["dup\n", "new\n", "dup\n"], { applied := 1, failed := 0, warnings := [] }) ∧
    (["dup\n", "new\n", "dup\n"] : List String) ≠ ["dup\n", "dup\n", "new\n"] := by
  exact ⟨rfl, rfl, by decide⟩

theorem filterMap_remove_nil :
    ∀ (ls : List HunkLine), (∀ l ∈ ls, l.type ≠ '-') →
      ls.filterMap (fun l => if l.type == '-' then some l.content else none) = [] := by
  intro ls
  induction ls with
  | nil => intro _; rfl
  | cons a as ih =>
    intro hno
    have ha : (a.type == '-') = false := by
      simp [hno a (by simp)]
    rw [List.filterMap_cons]
    simp only [ha, Bool.false_eq_true, if_false]
    exact ih (fun l hl => hno l (by simp [hl]))

theorem removalTexts_eq_nil {h : Hunk} (hno : ∀ l ∈ h.lines, l.type ≠ '-') :
    removalTexts h = [] :=
  filterMap_remove_nil h.lines hno

theorem insertAdditions_eq :
    ∀ (adds : List String) (c : List String) (p : Nat), p ≤ c.length →
      insertAdditions c p adds =
        c.take p ++ adds.map (fun t =>
          if !(endsWithNl t) && decide (p < c.length) then t ++ "\n" else t) ++ c.drop p := by
  intro adds
  induction adds with
  | nil =>
    intro c p _
    simp [insertAdditions]
  | cons t ts ih =>
    intro c p hp
    have hstep : insertAdditions c p (t :: ts) =
        insertAdditions
          (pyInsert c p (if !(endsWithNl t) && decide (p < c.length) then t ++ "\n" else t))
          (p + 1) ts := rfl
    set t2 := if !(endsWithNl t) && decide (p < c.length) then t ++ "\n" else t with ht2
    have hlen2 : (pyInsert c p t2).length = c.length + 1 := by
      unfold pyInsert
      simp [List.length_take, List.length_drop]
      omega
    have hcond : decide (p + 1 < (pyInsert c p t2).length) = decide (p < c.length) := by
      rw [hlen2]
      exact decide_eq_decide.mpr (by omega)
    have htl : (c.take p).length = p := by
      simp [List.length_take]
      omega
    rw [hstep, ih (pyInsert c p t2) (p + 1) (by omega)]
    rw [hcond]
    unfold pyInsert
    have htake : (c.take p ++ t2 :: c.drop p).take (p + 1) = c.take p ++ [t2] := by
      rw [List.take_append_eq_append_take, List.take_take]
      have h1 : min (p + 1) p = p := by omega
      have h2 : p + 1 - (c.take p).length = 1 := by rw [htl]; omega
      rw [h1, h2]
      rfl
    have hdrop : (c.take p ++ t2 :: c.drop p).drop (p + 1) = c.drop p := by
      rw [List.drop_append_eq_append_drop]
      have h1 : (c.take p).drop (p + 1) = [] := by
        apply List.drop_eq_nil_of_le
        omega
      have h2 : p + 1 - (c.take p).length = 1 := by rw [htl]; omega
      rw [h1, h2]
      rfl
    rw [htake, hdrop]
    simp only [List.map_cons, List.append_assoc, List.singleton_append, List.cons_append,
      List.nil_append]

/-- C4 (amended): for an anchor hunk whose lines contain no removals,
the addition texts are inserted consecutively, in list order, starting
AT the resolved anchor index `k` — that is, immediately BEFORE the line
previously at index `k`, not after it.  Each inserted line receives a
trailing newline unless it has one already or the anchor index is at
the end of the content.  (In the spec's duplicate-anchor scenario the
port receives `[0, 1]` and selecting 1 yields
`["dup\n","new\n","dup\n"]`: see
`anchor_insert_before_anchor_counterexample`.) -/
theorem anchor_additions_inserted_at_anchor :
    ∀ (content : List String) (h : Hunk) (k : Nat),
      k ≤ content.length →
      (∀ l ∈ h.lines, l.type ≠ '-') →
      performAnchorChanges false content h k =
        content.take k ++
          (additionTexts h).map (fun t =>
            if !(endsWithNl t) && decide (k < content.length) then t ++ "\n" else t) ++
          content.drop k := by
  intro content h k hk hno
  unfold performAnchorChanges
  simp only [Bool.false_eq_true, if_false, removalTexts_eq_nil hno]
  have h1 : anchorRemovalIndices content k [] = [] := rfl
  rw [h1]
  have h2 : deleteDescending content [] = content := rfl
  rw [h2]
  exact insertAdditions_eq (additionTexts h) content k hk

/-- Witness for `anchor_additions_inserted_at_anchor` at the
duplicate-anchor scenario (anchor index 1 chosen). -/
theorem anchor_additions_inserted_at_anchor_witness :
    performAnchorChanges false ["dup\n", "dup\n"]
      { type := "explicit_anchor", header := "@@ dup",
        lines := [{ type := '+', content := "new", line_num := none }],
        anchor := some "dup" } 1 =
      (["dup\n", "dup\n"] : List String).take 1 ++
        (additionTexts
          { type := "explicit_anchor", header := "@@ dup",
            lines := [{ type := '+', content := "new", line_num := none }],
            anchor := some "dup" }).map (fun t =>
          if !(endsWithNl t) && decide (1 < (["dup\n", "dup\n"] : List String).length)
          then t ++ "\n" else t) ++
        (["dup\n", "dup\n"] : List String).drop 1 :=
  anchor_additions_inserted_at_anchor ["dup\n", "dup\n"]
    { type := "explicit_anchor", header := "@@ dup",
      lines := [{ type := '+', content := "new", line_num := none }],
      anchor := some "dup" } 1 (by decide) (by decide)

/-- C5 counterexample: the removal search window ends at
`min(contentLength, anchorIndex + 2×removalCount)`, not at the claimed
`max(...)`.  With the anchor at index 0 and one removal text `"z"`
located at index 3, the window is `[0, 2)`: the line is never marked,
the content is returned unchanged and the hunk still counts as applied —
whereas the claimed `max` window `[0, 4)` would have deleted it. -/
theorem anchor_removal_window_counterexample :
    applyHunks false 3 disambNone ["a\n", "b\n", "c\n", "z\n"]
      [{ type := "explicit_anchor", header := "@@ a",
         lines := [{ type := '-', content := "z" }], anchor := some "a" }] =
      (["a\n", "b\n", "c\n", "z\n"], { applied := 1, failed := 0, warnings := [] }) ∧
    (["a\n", "b\n", "c\n", "z\n"] : List String) ≠ ["a\n", "b\n", "c\n"] := by
  exact ⟨rfl, by decide⟩

theorem mem_foldl_appendMatches {f : String → Option Nat} :
    ∀ (rs : List String) (acc : List Nat) (x : Nat),
      x ∈ rs.foldl (fun a r => match f r with | some i => a ++ [i] | none => a) acc ↔
        x ∈ acc ∨ ∃ r ∈ rs, f r = some x := by
  intro rs
  induction rs with
  | nil =>
    intro acc x
    simp
  | cons r rs ih =>
    intro acc x
    simp only [List.foldl_cons]
    cases hf : f r with
    | none =>
      rw [ih]
      constructor
      · rintro (h | ⟨r2, hr2, hfr2⟩)
        · exact Or.inl h
        · exact Or.inr ⟨r2, by simp [hr2], hfr2⟩
      · rintro (h | ⟨r2, hr2, hfr2⟩)
        · exact Or.inl h
        · rcases List.mem_cons.mp hr2 with heq | hr2m
          · rw [heq, hf] at hfr2
            cases hfr2
          · exact Or.inr ⟨r2, hr2m, hfr2⟩
    | some v =>
      rw [ih]
      constructor
      · rintro (h | ⟨r2, hr2, hfr2⟩)
        · rcases List.mem_append.mp h with h2 | h2
          · exact Or.inl h2
          · have hx : x = v := by simpa using h2
            exact Or.inr ⟨r, by simp, by rw [hf, hx]⟩
        · exact Or.inr ⟨r2, by simp [hr2], hfr2⟩
      · rintro (h | ⟨r2, hr2, hfr2⟩)
        · exact Or.inl (List.mem_append.mpr (Or.inl h))
        · rcases List.mem_cons.mp hr2 with heq | hr2m
          · rw [heq, hf] at hfr2
            have hx : v = x := by injection hfr2
            exact Or.inl (List.mem_append.mpr (Or.inr (by simp [hx])))
          · exact Or.inr ⟨r2, hr2m, hfr2⟩

/-- C5 (amended): the marked removal indices of an anchor hunk are
exactly the per-removal first matches in the window
`[anchorIndex, min(contentLength, anchorIndex + 2 × removalCount))` —
first content line whose `rstrip('\n')` contains the stripped removal
text as a substring.  The claimed window bound `max(contentLength, ...)`
is refuted by `anchor_removal_window_counterexample`; the code uses
`min`.  (`performAnchorChanges` then deletes the marked indices in
descending order via `deleteDescending` and `sortNatDesc`.) -/
theorem anchor_removal_window_spec :
    ∀ (content : List String) (k : Nat) (rs : List String) (i : Nat),
      i ∈ anchorRemovalIndices content k rs ↔
        ∃ r ∈ rs, k ≤ i ∧ i < min content.length (k + rs.length * 2) ∧
          strContainsSub (pyRstripNl (content.getD i "")) (pyStrip r) = true ∧
          ∀ j, k ≤ j → j < i →
            strContainsSub (pyRstripNl (content.getD j "")) (pyStrip r) = false := by
  intro content k rs i
  unfold anchorRemovalIndices
  by_cases hrs : rs.isEmpty = true
  · rw [if_pos hrs]
    have hnil : rs = [] := by
      cases rs with
      | nil => rfl
      | cons a l => simp at hrs
    subst hnil
    simp
  · rw [if_neg hrs]
    rw [mem_foldl_appendMatches]
    simp only [List.not_mem_nil, false_or]
    constructor
    · rintro ⟨r, hr, hfind⟩
      rw [findFirstFrom_eq_some] at hfind
      obtain ⟨h1, h2, h3, h4⟩ := hfind
      simp only [Bool.and_eq_true, decide_eq_true_eq] at h3
      have hlt : i < min content.length (k + rs.length * 2) := by
        rcases Nat.le_total content.length (k + rs.length * 2) with hm | hm
        · rw [Nat.min_eq_left hm]
          exact h3.1
        · rw [Nat.min_eq_right hm]
          rw [Nat.min_eq_right hm] at h2
          omega
      refine ⟨r, hr, h1, hlt, h3.2, ?_⟩
      intro j hj1 hj2
      have hjlen : j < content.length := by
        have : i < content.length := h3.1
        omega
      have hb := h4 j hj1 hj2
      rw [show decide (j < content.length) = true by simp [hjlen], Bool.true_and] at hb
      exact hb
    · rintro ⟨r, hr, h1, h2, h3, h4⟩
      have hilen : i < content.length := lt_of_lt_of_le h2 (Nat.min_le_left _ _)
      have hie : i < min content.length (k + rs.length * 2) := h2
      refine ⟨r, hr, ?_⟩
      rw [findFirstFrom_eq_some]
      refine ⟨h1, by omega, ?_, ?_⟩
      · simp only [Bool.and_eq_true, decide_eq_true_eq]
        exact ⟨hilen, h3⟩
      · intro j hj1 hj2
        by_cases hjl : j < content.length
        · rw [show decide (j < content.length) = true by simp [hjl], Bool.true_and]
          exact h4 j hj1 hj2
        · rw [show decide (j < content.length) = false by simp [hjl], Bool.false_and]

/-- C6: the revert round-trip fails for a pure remove hunk.  Applying
`-b` at `old_start = 2` to `["a\n","b\n","c\n"]` succeeds and yields
`["a\n","c\n"]`; re-applying the same hunk in revert mode fails context
validation (the `'-'` line is still checked against the content, where
it no longer exists), so the content stays `["a\n","c\n"]` instead of
being restored. -/
theorem unified_revert_roundtrip_fails :
    applyHunks false 3 disambNone ["a\n", "b\n", "c\n"]
      [{ type := "unified", header := "@@ -2 +2 @@",
         lines := [{ type := '-', content := "b" }],
         old_start := some 2, old_count := some 1,
         new_start := some 2, new_count := some 0 }] =
      (["a\n", "c\n"], { applied := 1, failed := 0, warnings := [] }) ∧
    applyHunks true 3 disambNone ["a\n", "c\n"]
      [{ type := "unified", header := "@@ -2 +2 @@",
         lines := [{ type := '-', content := "b" }],
         old_start := some 2, old_count := some 1,
         new_start := some 2, new_count := some 0 }] =
      (["a\n", "c\n"],
       { applied := 0, failed := 1,
         warnings := ["Contexto divergente no hunk unified (linha 2)"] }) ∧
    (["a\n", "c\n"] : List String) ≠ ["a\n", "b\n", "c\n"] := by
  exact ⟨rfl, rfl, by decide⟩

/-- Modelled from the spec (claim C7 wording): the hunk's context lines
equal consecutive content lines starting at `i`, trailing terminators
ignored, with the whole window inside the content. -/
def specCtxWindow (content ctx : List String) (i : Nat) : Prop :=
  i + ctx.length ≤ content.length ∧
    ∀ j, j < ctx.length → pyRstripNl (content.getD (i + j) "") = ctx.getD j ""

theorem windowMatchAt_iff {content ctx : List String} (hne : ctx ≠ []) (i : Nat) :
    windowMatchAt content ctx i = true ↔ specCtxWindow content ctx i := by
  unfold windowMatchAt specCtxWindow
  rw [isLeadingSeg_iff ""]
  have hc : 0 < ctx.length := List.length_pos.mpr hne
  constructor
  · rintro ⟨hlen, hpos⟩
    rw [List.length_map, List.length_drop] at hlen
    refine ⟨by omega, fun j hj => ?_⟩
    have hh := hpos j hj
    rw [getD_map_lt pyRstripNl "" "" (content.drop i) j
      (by rw [List.length_drop]; omega), getD_drop] at hh
    exact hh.symm
  · rintro ⟨hlen, hpos⟩
    constructor
    · rw [List.length_map, List.length_drop]
      omega
    · intro j hj
      rw [getD_map_lt pyRstripNl "" "" (content.drop i) j
        (by rw [List.length_drop]; omega), getD_drop]
      exact (hpos j hj).symm

/-- C7: position resolution of unified hunks.  (1) A declared
`old_start > 1` is used directly as `old_start - 1`, with no search;
(2) a missing or `≤ 1` `old_start` triggers the content search;
(3) with context lines present, the search returns exactly the first
window position where every context line equals the corresponding
content line (trailing terminators ignored); (4) with no context lines,
it returns the first content line equal to the first remove line's text
(`none` when the hunk has no remove line); (5) an unresolved position
fails the hunk with the position-not-found warning, leaving the content
unchanged. -/
theorem unified_position_resolution_policy :
    ∀ (content : List String) (h : Hunk),
      (∀ s, h.old_start = some s → 1 < s →
        unifiedTargetIndex content h = some (s - 1)) ∧
      ((h.old_start = none ∨ ∃ s, h.old_start = some s ∧ s ≤ 1) →
        unifiedTargetIndex content h = findBestUnifiedPosition content h) ∧
      (contextTexts h ≠ [] → ∀ i,
        (findBestUnifiedPosition content h = some i ↔
          specCtxWindow content (contextTexts h) i ∧
          ∀ j, j < i → ¬ specCtxWindow content (contextTexts h) j)) ∧
      (contextTexts h = [] →
        (∀ l, h.lines.find? (fun l2 => l2.type == '-') = some l → ∀ i,
          (findBestUnifiedPosition content h = some i ↔
            i < content.length ∧
            pyRstripNl (content.getD i "") = pyRstripNl l.content ∧
            ∀ j, j < i → pyRstripNl (content.getD j "") ≠ pyRstripNl l.content)) ∧
        (h.lines.find? (fun l2 => l2.type == '-') = none →
          findBestUnifiedPosition content h = none)) ∧
      (∀ revert, unifiedTargetIndex content h = none →
        applyUnifiedHunk revert content h =
          (false, content, ["Não foi possível encontrar posição para hunk unified"])) := by
  intro content h
  refine ⟨?_, ?_, ?_, ?_, ?_⟩
  · intro s hs hlt
    unfold unifiedTargetIndex
    rw [hs]
    show (if s ≤ 1 then findBestUnifiedPosition content h else some (s - 1)) = some (s - 1)
    rw [if_neg (by omega)]
  · intro hcase
    unfold unifiedTargetIndex
    rcases hcase with hn | ⟨s, hs, hle⟩
    · rw [hn]
    · rw [hs]
      show (if s ≤ 1 then findBestUnifiedPosition content h else some (s - 1)) =
        findBestUnifiedPosition content h
      rw [if_pos hle]
  · intro hne i
    unfold findBestUnifiedPosition
    rw [if_neg (by simpa [List.isEmpty_iff] using hne)]
    rw [findFirstFrom_eq_some]
    have hc : 0 < (contextTexts h).length := List.length_pos.mpr hne
    constructor
    · rintro ⟨_, hlt, hw, hmin⟩
      refine ⟨(windowMatchAt_iff hne i).mp hw, fun j hj => ?_⟩
      intro hspec
      have := hmin j (Nat.zero_le j) hj
      rw [(windowMatchAt_iff hne j).mpr hspec] at this
      cases this
    · rintro ⟨hspec, hmin⟩
      have hib : i < 0 + (content.length + 1 - (contextTexts h).length) := by
        have := hspec.1
        omega
      refine ⟨Nat.zero_le i, hib, (windowMatchAt_iff hne i).mpr hspec, ?_⟩
      intro j _ hj
      by_contra hcon
      have hw : windowMatchAt content (contextTexts h) j = true := by
        cases hb : windowMatchAt content (contextTexts h) j with
        | false => exact absurd hb hcon
        | true => rfl
      exact hmin j hj ((windowMatchAt_iff hne j).mp hw)
  · intro hctx
    constructor
    · intro l hl i
      unfold findBestUnifiedPosition
      rw [if_pos (by simp [hctx]), hl]
      unfold findLineInContent
      rw [findFirstFrom_eq_some]
      constructor
      · rintro ⟨_, hlt, hbeq, hmin⟩
        refine ⟨by omega, by simpa using hbeq, fun j hj => ?_⟩
        have := hmin j (Nat.zero_le j) hj
        simpa using this
      · rintro ⟨hlt, heq, hmin⟩
        refine ⟨Nat.zero_le i, by omega, by simpa using heq, fun j _ hj => ?_⟩
        simpa using hmin j hj
    · intro hnone
      unfold findBestUnifiedPosition
      rw [if_pos (by simp [hctx]), hnone]
  · intro revert hnone
    unfold applyUnifiedHunk
    rw [hnone]

/-- Witness for `unified_position_resolution_policy`: a declared
`old_start = 2` resolves to index 1 with no search. -/
theorem unified_position_resolution_policy_witness :
    unifiedTargetIndex ["a\n", "b\n"]
      { type := "unified", header := "@@ -2 +2 @@",
        lines := [{ type := '-', content := "b", line_num := none }],
        old_start := some 2, old_count := some 1, new_start := some 2,
        new_count := some 1, anchor := none } = some 1 :=
  (unified_position_resolution_policy ["a\n", "b\n"]
    { type := "unified", header := "@@ -2 +2 @@",
      lines := [{ type := '-', content := "b", line_num := none }],
      old_start := some 2, old_count := some 1, new_start := some 2,
      new_count := some 1, anchor := none }).1 2 rfl (by omega)

/-- C8 counterexample: a `@@` header immediately followed by the end of
the input parses to a `Hunk` carrying NO `HunkLine`s. -/
theorem hunk_with_empty_lines_counterexample :
    (parsePatch ("@@ -1 +1 @@")).map (List.map Hunk.lines) = Except.ok [[]] := by
  rfl

theorem applyUnifiedHunk_failure :
    ∀ (revert : Bool) (c : List String) (h : Hunk),
      (applyUnifiedHunk revert c h).1 = false →
      (applyUnifiedHunk revert c h).2.1 = c ∧ (applyUnifiedHunk revert c h).2.2 ≠ [] := by
  intro revert c h
  unfold applyUnifiedHunk
  split
  · intro _
    exact ⟨rfl, List.cons_ne_nil _ _⟩
  · split
    · intro hfail
      simp at hfail
    · intro _
      exact ⟨rfl, List.cons_ne_nil _ _⟩

theorem applyExplicitAnchorHunk_failure :
    ∀ (revert : Bool) (ctxn : Nat) (disamb : Disamb) (c : List String) (h : Hunk),
      (applyExplicitAnchorHunk revert ctxn disamb c h).1 = false →
      (applyExplicitAnchorHunk revert ctxn disamb c h).2.1 = c ∧
        (applyExplicitAnchorHunk revert ctxn disamb c h).2.2 ≠ [] := by
  intro revert ctxn disamb c h
  unfold applyExplicitAnchorHunk
  split
  · intro _
    exact ⟨rfl, List.cons_ne_nil _ _⟩
  · split
    · intro _
      exact ⟨rfl, List.cons_ne_nil _ _⟩
    · split
      · intro _
        exact ⟨rfl, List.cons_ne_nil _ _⟩
      · intro hfail
        simp at hfail
      · split
        · intro _
          exact ⟨rfl, List.cons_ne_nil _ _⟩
        · intro hfail
          simp at hfail

theorem applyImplicitAnchorHunk_failure :
    ∀ (revert : Bool) (ctxn : Nat) (disamb : Disamb) (c : List String) (h : Hunk),
      (applyImplicitAnchorHunk revert ctxn disamb c h).1 = false →
      (applyImplicitAnchorHunk revert ctxn disamb c h).2.1 = c ∧
        (applyImplicitAnchorHunk revert ctxn disamb c h).2.2 ≠ [] := by
  intro revert ctxn disamb c h
  unfold applyImplicitAnchorHunk
  split
  · intro _
    exact ⟨rfl, List.cons_ne_nil _ _⟩
  · split
    · intro _
      exact ⟨rfl, List.cons_ne_nil _ _⟩
    · split
      · intro _
        exact ⟨rfl, List.cons_ne_nil _ _⟩
      · intro hfail
        simp at hfail
      · split
        · intro _
          exact ⟨rfl, List.cons_ne_nil _ _⟩
        · intro hfail
          simp at hfail

theorem applyHunksGo_count :
    ∀ (revert : Bool) (ctxn : Nat) (disamb : Disamb) (hs : List Hunk)
      (c : List String) (res : Results),
      (applyHunksGo revert ctxn disamb hs (c, res)).2.applied +
        (applyHunksGo revert ctxn disamb hs (c, res)).2.failed =
        res.applied + res.failed + hs.length := by
  intro revert ctxn disamb hs
  induction hs with
  | nil =>
    intro c res
    simp [applyHunksGo]
  | cons h hs ih =>
    intro c res
    simp only [applyHunksGo]
    by_cases hsucc : (applyOneHunk revert ctxn disamb c h).1 = true
    · rw [if_pos hsucc, ih]
      simp
      omega
    · rw [if_neg hsucc, ih]
      simp
      omega

/-- C9: failure isolation in `apply_hunks`.  Every hunk is attempted
and counted exactly once (`applied + failed` equals the number of
hunks), and a hunk of any of the three kinds that fails leaves the
content exactly as it was before the attempt and records at least one
warning; the modelled collaborators are total, so no exception escapes
a hunk attempt. -/
theorem apply_hunks_failure_isolation :
    ∀ (revert : Bool) (ctxn : Nat) (disamb : Disamb) (content : List String)
      (hunks : List Hunk),
      ((applyHunks revert ctxn disamb content hunks).2.applied +
        (applyHunks revert ctxn disamb content hunks).2.failed = hunks.length) ∧
      ∀ (c : List String) (h2 : Hunk),
        (h2.type = "unified" ∨ h2.type = "explicit_anchor" ∨
          h2.type = "implicit_anchor") →
        (applyOneHunk revert ctxn disamb c h2).1 = false →
        (applyOneHunk revert ctxn disamb c h2).2.1 = c ∧
          (applyOneHunk revert ctxn disamb c h2).2.2 ≠ [] := by
  intro revert ctxn disamb content hunks
  constructor
  · have := applyHunksGo_count revert ctxn disamb hunks content
      { applied := 0, failed := 0, warnings := [] }
    simpa [applyHunks] using this
  · intro c h2 htype hfail
    rcases htype with ht | ht | ht
    · have he : applyOneHunk revert ctxn disamb c h2 = applyUnifiedHunk revert c h2 := by
        unfold applyOneHunk
        rw [if_pos (by rw [ht]; decide)]
      rw [he] at hfail ⊢
      exact applyUnifiedHunk_failure revert c h2 hfail
    · have he : applyOneHunk revert ctxn disamb c h2 =
          applyExplicitAnchorHunk revert ctxn disamb c h2 := by
        unfold applyOneHunk
        rw [if_neg (by rw [ht]; decide), if_pos (by rw [ht]; decide)]
      rw [he] at hfail ⊢
      exact applyExplicitAnchorHunk_failure revert ctxn disamb c h2 hfail
    · have he : applyOneHunk revert ctxn disamb c h2 =
          applyImplicitAnchorHunk revert ctxn disamb c h2 := by
        unfold applyOneHunk
        rw [if_neg (by rw [ht]; decide), if_neg (by rw [ht]; decide),
          if_pos (by rw [ht]; decide)]
      rw [he] at hfail ⊢
      exact applyImplicitAnchorHunk_failure revert ctxn disamb c h2 hfail

/-- Witness for `apply_hunks_failure_isolation`: a unified hunk whose
context cannot be found fails, leaves the one-line content unchanged,
and records a warning. -/
theorem apply_hunks_failure_isolation_witness :
    (applyOneHunk false 3 disambNone ["a\n"]
      { type := "unified", header := "@@", lines := [{ type := ' ', content := "zz", line_num := none }],
        old_start := none, old_count := none, new_start := none,
        new_count := none, anchor := none }).2.1 = ["a\n"] ∧
    (applyOneHunk false 3 disambNone ["a\n"]
      { type := "unified", header := "@@", lines := [{ type := ' ', content := "zz", line_num := none }],
        old_start := none, old_count := none, new_start := none,
        new_count := none, anchor := none }).2.2 ≠ [] :=
  (apply_hunks_failure_isolation false 3 disambNone ["a\n"] []).2 ["a\n"]
    { type := "unified", header := "@@", lines := [{ type := ' ', content := "zz", line_num := none }],
      old_start := none, old_count := none, new_start := none,
      new_count := none, anchor := none } (Or.inl rfl) (by decide)

theorem getD_set_self {α : Type} (d : α) :
    ∀ (l : List α) (i : Nat) (v : α), i < l.length → (l.set i v).getD i d = v := by
  intro l
  induction l with
  | nil =>
    intro i v h
    simp at h
  | cons a l ih =>
    intro i v h
    cases i with
    | zero => rfl
    | succ i => exact ih i v (by simpa using h)

theorem getD_set_ne {α : Type} (d : α) :
    ∀ (l : List α) (i j : Nat) (v : α), i ≠ j →
      (l.set i v).getD j d = l.getD j d := by
  intro l
  induction l with
  | nil =>
    intro i j v _
    rfl
  | cons a l ih =>
    intro i j v hne
    cases i with
    | zero =>
      cases j with
      | zero => exact absurd rfl hne
      | succ j => rfl
    | succ i =>
      cases j with
      | zero => rfl
      | succ j => exact ih i j v (by omega)

theorem getD_append_fresh {α : Type} (d : α) :
    ∀ (l : List α) (v : α), (l ++ [v]).getD l.length d = v := by
  intro l
  induction l with
  | nil => intro v; rfl
  | cons a l ih => intro v; exact ih v

theorem getD_append_lt {α : Type} (d : α) :
    ∀ (l : List α) (v : α) (q : Nat), q < l.length →
      (l ++ [v]).getD q d = l.getD q d := by
  intro l
  induction l with
  | nil =>
    intro v q h
    simp at h
  | cons a l ih =>
    intro v q h
    cases q with
    | zero => rfl
    | succ q => exact ih v q (by simpa using h)

theorem getD_of_length_le {α : Type} (d : α) :
    ∀ (l : List α) (q : Nat), l.length ≤ q → l.getD q d = d := by
  intro l
  induction l with
  | nil => intro q _; rfl
  | cons a l ih =>
    intro q h
    cases q with
    | zero => simp at h
    | succ q => exact ih q (by simpa using h)

theorem applyHunksRefGo_spec :
    ∀ (revert : Bool) (ctxn : Nat) (disamb : Disamb) (r2 : Nat) (hs : List Hunk)
      (σa : List (List String)) (resa : Results), r2 < σa.length →
      ((applyHunksRefGo revert ctxn disamb r2 hs (σa, resa)).1.getD r2 [] =
          (applyHunksGo revert ctxn disamb hs (σa.getD r2 [], resa)).1 ∧
        (applyHunksRefGo revert ctxn disamb r2 hs (σa, resa)).2 =
          (applyHunksGo revert ctxn disamb hs (σa.getD r2 [], resa)).2 ∧
        ∀ q, q ≠ r2 →
          (applyHunksRefGo revert ctxn disamb r2 hs (σa, resa)).1.getD q [] =
            σa.getD q []) := by
  intro revert ctxn disamb r2 hs
  induction hs with
  | nil =>
    intro σa resa _
    exact ⟨rfl, rfl, fun q _ => rfl⟩
  | cons h hs ih =>
    intro σa resa hr2
    simp only [applyHunksRefGo, applyHunksGo]
    have hlen : r2 < (σa.set r2 (applyOneHunk revert ctxn disamb (σa.getD r2 []) h).2.1).length := by
      rw [List.length_set]
      exact hr2
    obtain ⟨ih1, ih2, ih3⟩ := ih
      (σa.set r2 (applyOneHunk revert ctxn disamb (σa.getD r2 []) h).2.1) _ hlen
    have hcell : (σa.set r2 (applyOneHunk revert ctxn disamb (σa.getD r2 []) h).2.1).getD r2 [] =
        (applyOneHunk revert ctxn disamb (σa.getD r2 []) h).2.1 :=
      getD_set_self [] σa r2 _ hr2
    refine ⟨?_, ?_, ?_⟩
    · rw [ih1, hcell]
    · rw [ih2, hcell]
    · intro q hq
      rw [ih3 q hq, getD_set_ne [] σa r2 q _ (fun he => hq he.symm)]

/-- C10: the caller's content cell is never mutated by `apply_hunks`.
In the heap model, the function allocates a fresh cell (`σ.length`)
holding a copy of the caller's content, every cell other than the fresh
one — in particular the caller's cell `r` — is unchanged at the end,
and the fresh cell together with the report equals the pure
`applyHunks` of the caller's content: the returned mutated content is
exactly the copy made at entry. -/
theorem apply_hunks_caller_content_frame :
    ∀ (revert : Bool) (ctxn : Nat) (disamb : Disamb) (σ : List (List String))
      (r : Nat) (hunks : List Hunk), r < σ.length →
      (applyHunksRef revert ctxn disamb σ r hunks).2.1 = σ.length ∧
      (∀ q, q ≠ σ.length →
        (applyHunksRef revert ctxn disamb σ r hunks).1.getD q [] = σ.getD q []) ∧
      ((applyHunksRef revert ctxn disamb σ r hunks).1.getD σ.length [],
        (applyHunksRef revert ctxn disamb σ r hunks).2.2) =
        applyHunks revert ctxn disamb (σ.getD r []) hunks := by
  intro revert ctxn disamb σ r hunks hr
  have hfreshlen : σ.length < (σ ++ [σ.getD r []]).length := by
    rw [List.length_append]
    simp
  obtain ⟨h1, h2, h3⟩ := applyHunksRefGo_spec revert ctxn disamb σ.length hunks
    (σ ++ [σ.getD r []]) { applied := 0, failed := 0, warnings := [] } hfreshlen
  have hfresh : (σ ++ [σ.getD r []]).getD σ.length [] = σ.getD r [] :=
    getD_append_fresh [] σ (σ.getD r [])
  refine ⟨rfl, ?_, ?_⟩
  · intro q hq
    rw [show (applyHunksRef revert ctxn disamb σ r hunks).1 =
        (applyHunksRefGo revert ctxn disamb σ.length hunks
          (σ ++ [σ.getD r []], { applied := 0, failed := 0, warnings := [] })).1 from rfl]
    rw [h3 q hq]
    rcases Nat.lt_or_ge q σ.length with hlt | hge
    · exact getD_append_lt [] σ (σ.getD r []) q hlt
    · have hq2 : σ.length + 1 ≤ q := by
        rcases Nat.eq_or_lt_of_le hge with he | hl
        · exact absurd he.symm hq
        · omega
      rw [getD_of_length_le [] (σ ++ [σ.getD r []]) q (by rw [List.length_append]; simpa),
        getD_of_length_le [] σ q (by omega)]
  · rw [show (applyHunksRef revert ctxn disamb σ r hunks).1 =
        (applyHunksRefGo revert ctxn disamb σ.length hunks
          (σ ++ [σ.getD r []], { applied := 0, failed := 0, warnings := [] })).1 from rfl]
    rw [show (applyHunksRef revert ctxn disamb σ r hunks).2.2 =
        (applyHunksRefGo revert ctxn disamb σ.length hunks
          (σ ++ [σ.getD r []], { applied := 0, failed := 0, warnings := [] })).2 from rfl]
    rw [h1, h2, hfresh]
    rfl

/-- Witness for `apply_hunks_caller_content_frame`: a one-cell store
holding `["a\n"]`, reference 0, and one successfully applied unified
hunk. -/
theorem apply_hunks_caller_content_frame_witness :
    (applyHunksRef false 3 disambNone [["a\n"]] 0
      [{ type := "unified", header := "@@ -1 +1 @@",
         lines := [{ type := '+', content := "x", line_num := none }],
         old_start := some 2, old_count := some 1, new_start := some 2,
         new_count := some 1, anchor := none }]).2.1 = 1 ∧
    (∀ q, q ≠ 1 →
      (applyHunksRef false 3 disambNone [["a\n"]] 0
        [{ type := "unified", header := "@@ -1 +1 @@",
           lines := [{ type := '+', content := "x", line_num := none }],
           old_start := some 2, old_count := some 1, new_start := some 2,
           new_count := some 1, anchor := none }]).1.getD q [] =
        ([["a\n"]] : List (List String)).getD q []) ∧
    ((applyHunksRef false 3 disambNone [["a\n"]] 0
      [{ type := "unified", header := "@@ -1 +1 @@",
         lines := [{ type := '+', content := "x", line_num := none }],
         old_start := some 2, old_count := some 1, new_start := some 2,
         new_count := some 1, anchor := none }]).1.getD 1 [],
      (applyHunksRef false 3 disambNone [["a\n"]] 0
        [{ type := "unified", header := "@@ -1 +1 @@",
           lines := [{ type := '+', content := "x", line_num := none }],
           old_start := some 2, old_count := some 1, new_start := some 2,
           new_count := some 1, anchor := none }]).2.2) =
      applyHunks false 3 disambNone (([["a\n"]] : List (List String)).getD 0 [])
        [{ type := "unified", header := "@@ -1 +1 @@",
           lines := [{ type := '+', content := "x", line_num := none }],
           old_start := some 2, old_count := some 1, new_start := some 2,
           new_count := some 1, anchor := none }] :=
  apply_hunks_caller_content_frame false 3 disambNone [["a\n"]] 0
    [{ type := "unified", header := "@@ -1 +1 @@",
       lines := [{ type := '+', content := "x", line_num := none }],
       old_start := some 2, old_count := some 1, new_start := some 2,
       new_count := some 1, anchor := none }] (by decide)

end PatchCode

